import Mathlib

/-!
Shallow embedding of `src/simulation/camera.py` (IR camera coverage
simulation: camera model, pixel-to-world projection, footprint, coverage
map, resolution map, point-in-polygon, auto tilt).

Python floating-point arithmetic is modelled by exact real arithmetic;
numpy arrays are modelled by lists; the `Optional` return values that the
code never actually produces are modelled by total functions, and the
`inf` / `NaN` sentinels of the resolution map by `Option ℝ` (`none` is the
"no sample" marker: `inf` during accumulation, `NaN` in the output).
-/

/-! ## Generic list / grid helpers (numpy modelling) -/

/-- One step of the ray-casting loop of `point_in_polygon`: `e` is the
current edge, first component vertex `polygon[i]`, second `polygon[j]`. -/
def pipStep {α : Type} [LinearOrderedField α] (x y : α) (inside : Bool)
    (e : (α × α) × (α × α)) : Bool :=
  let xi := e.1.1
  let yi := e.1.2
  let xj := e.2.1
  let yj := e.2.2
  if ((y < yi) ≠ (y < yj)) ∧ x < (xj - xi) * (y - yi) / (yj - yi) + xi then
    !inside
  else inside

/-- The `point_in_polygon` from camera.py: even-odd ray casting over the edge
list ((p0,p\x7bn-1\x7d), (p1,p0), ..., (p\x7bn-1\x7d,p\x7bn-2\x7d)). -/
def point_in_polygon {α : Type} [LinearOrderedField α] (x y : α) :
    List (α × α) → Bool
  | [] => false
  | a :: as => ((a :: as).zip (as.getLastD a :: a :: as)).foldl (pipStep x y) false

/-- The `np.arange(0, stop, step)`: the values `k * step` for `0 ≤ k`,
`k * step < stop`; their number is `⌈stop / step⌉` for `step > 0`. -/
def arange0 {α : Type} [LinearOrderedField α] [FloorRing α] (stop step : α) :
    List α :=
  (List.range (Int.toNat ⌈stop / step⌉)).map (fun k : ℕ => (k : α) * step)

/-- The `np.zeros_like(X, dtype=int)` for the meshgrid of `xs` and `ys`
(rows indexed by `ys`, columns by `xs`). -/
def zeros_grid {α : Type} (xs ys : List α) : List (List ℕ) :=
  ys.map (fun _ => xs.map (fun _ => 0))

/-- Total read of an integer grid cell (row `i`, column `j`). -/
def gridVal (g : List (List ℕ)) (i j : ℕ) : ℕ :=
  (g.getD i []).getD j 0

/-- Total read of an optional-value grid cell (row `i`, column `j`). -/
def gridValO (g : List (List (Option ℝ))) (i j : ℕ) : Option ℝ :=
  (g.getD i []).getD j none

/-- The `np.full_like(X, np.inf)` under the `Option` model of the `inf`
sentinel: every cell starts at `none`. -/
def nones_grid (xs ys : List ℝ) : List (List (Option ℝ)) :=
  ys.map (fun _ => xs.map (fun _ => none))

/-- In-place update of one list element (no-op out of range), modelling
`a[i] = f(a[i])` on a numpy array. -/
def listModify {α : Type} (f : α → α) : ℕ → List α → List α
  | _, [] => []
  | 0, a :: as => f a :: as
  | n + 1, a :: as => a :: listModify f n as

/-- Shape of a grid: number of rows and common row length. -/
def gridShape {β : Type} (g : List (List β)) (r cl : ℕ) : Prop :=
  g.length = r ∧ ∀ row ∈ g, row.length = cl

/-! ## Camera data model (`CameraSpec`, `Camera`) -/

/-- The `CameraSpec` dataclass: MLX90640 defaults. -/
structure CameraSpec where
  resolution_x : ℕ := 32
  resolution_y : ℕ := 24
  fov_h : ℝ := 110
  fov_v : ℝ := 75

/-- The `Camera` dataclass. -/
structure Camera where
  id : ℤ
  x : ℝ
  y : ℝ
  z : ℝ
  tilt_angle : ℝ := 0
  tilt_direction : ℝ := 0
  spec : CameraSpec := {}

noncomputable section

/-- The `np.radians`. -/
def radians (d : ℝ) : ℝ := d * (Real.pi / 180)

/-- The `np.degrees`. -/
def degrees (r : ℝ) : ℝ := r * (180 / Real.pi)

/-- The `np.arctan2 y x` (note the argument order), as the argument of the
complex number `x + y*I`. -/
def arctan2 (y x : ℝ) : ℝ := Complex.arg ⟨x, y⟩

/-! ## Projector (`Camera.pixel_to_world`) -/

/-- Horizontal pixel-to-angle map of `pixel_to_world`. -/
def Camera.angle_h (c : Camera) (px : ℝ) : ℝ :=
  (px - ((c.spec.resolution_x : ℝ) - 1) / 2) / ((c.spec.resolution_x : ℝ) - 1)
    * radians c.spec.fov_h

/-- Vertical pixel-to-angle map of `pixel_to_world`. -/
def Camera.angle_v (c : Camera) (py : ℝ) : ℝ :=
  (py - ((c.spec.resolution_y : ℝ) - 1) / 2) / ((c.spec.resolution_y : ℝ) - 1)
    * radians c.spec.fov_v

/-- The `v / np.linalg.norm(v)` for a 3-vector. -/
def normalize3 (v : Fin 3 → ℝ) : Fin 3 → ℝ :=
  fun i => v i / Real.sqrt (v 0 ^ 2 + v 1 ^ 2 + v 2 ^ 2)

/-- The normalized local ray `(tan angle_h, tan angle_v, -1)`. -/
def Camera.ray_local (c : Camera) (px py : ℝ) : Fin 3 → ℝ :=
  normalize3 ![Real.tan (c.angle_h px), Real.tan (c.angle_v py), -1]

/-- The `Rz_neg` of camera.py: rotation by `-d` about Z. -/
def Rz_neg (d : ℝ) : Matrix (Fin 3) (Fin 3) ℝ :=
  Matrix.of ![![Real.cos d, Real.sin d, 0],
              ![-Real.sin d, Real.cos d, 0],
              ![0, 0, 1]]

/-- The `Rz_pos` of camera.py: rotation by `+d` about Z. -/
def Rz_pos (d : ℝ) : Matrix (Fin 3) (Fin 3) ℝ :=
  Matrix.of ![![Real.cos d, -Real.sin d, 0],
              ![Real.sin d, Real.cos d, 0],
              ![0, 0, 1]]

/-- The `Ry` of camera.py: rotation by the tilt angle about Y. -/
def Ry_tilt (t : ℝ) : Matrix (Fin 3) (Fin 3) ℝ :=
  Matrix.of ![![Real.cos t, 0, Real.sin t],
              ![0, 1, 0],
              ![-Real.sin t, 0, Real.cos t]]

/-- The `R_combined = Rz_pos @ Ry @ Rz_neg`. -/
def Camera.R_combined (c : Camera) : Matrix (Fin 3) (Fin 3) ℝ :=
  Rz_pos (radians c.tilt_direction) * Ry_tilt (radians c.tilt_angle)
    * Rz_neg (radians c.tilt_direction)

/-- The `ray_tilted = R_combined @ ray_local`. -/
def Camera.ray_tilted (c : Camera) (px py : ℝ) : Fin 3 → ℝ :=
  c.R_combined.mulVec (c.ray_local px py)

/-- The `Camera.pixel_to_world`: ray-plane intersection with the far-distance
saturation branch; always returns a coordinate pair. -/
def Camera.pixel_to_world (c : Camera) (px py : ℝ) : ℝ × ℝ :=
  let rt := c.ray_tilted px py
  if -(1 / 1000 : ℝ) ≤ rt 2 then
    (c.x + 10000 * rt 0, c.y + 10000 * rt 1)
  else
    let t := -c.z / rt 2
    (c.x + t * rt 0, c.y + t * rt 1)

/-! ## FootprintSolver (`Camera.calculate_footprint`) -/

/-- The 2D rotation by `d` about Z (the 2x2 `rotation_matrix` of the
`tilt_angle == 0` branch applied to a point). -/
def rot2 (d : ℝ) (p : ℝ × ℝ) : ℝ × ℝ :=
  (Real.cos d * p.1 - Real.sin d * p.2, Real.sin d * p.1 + Real.cos d * p.2)

/-- The `np.max` of a list (the lists used here are never empty). -/
def listMax : List ℝ → ℝ
  | [] => 0
  | a :: as => as.foldl max a

/-- The `np.min` of a list (the lists used here are never empty). -/
def listMin : List ℝ → ℝ
  | [] => 0
  | a :: as => as.foldl min a

/-- The `Camera.calculate_footprint`: returns (corners, center, width, height). -/
def Camera.calculate_footprint (c : Camera) :
    List (ℝ × ℝ) × (ℝ × ℝ) × ℝ × ℝ :=
  let fov_h_rad := radians c.spec.fov_h
  let fov_v_rad := radians c.spec.fov_v
  let dir_rad := radians c.tilt_direction
  let half_h := c.z * Real.tan (fov_h_rad / 2)
  let half_v := c.z * Real.tan (fov_v_rad / 2)
  if c.tilt_angle = 0 then
    let base : List (ℝ × ℝ) :=
      [(-half_h, -half_v), (half_h, -half_v), (half_h, half_v), (-half_h, half_v)]
    let corners := base.map (fun p =>
      ((rot2 dir_rad p).1 + c.x, (rot2 dir_rad p).2 + c.y))
    (corners, (c.x, c.y), half_h * 2, half_v * 2)
  else
    let rx : ℝ := (c.spec.resolution_x : ℝ)
    let ry : ℝ := (c.spec.resolution_y : ℝ)
    let corner_pixels : List (ℝ × ℝ) :=
      [(0, 0), (rx - 1, 0), (rx - 1, ry - 1), (0, ry - 1)]
    let corners := corner_pixels.map (fun p => c.pixel_to_world p.1 p.2)
    let center := c.pixel_to_world (rx / 2 - 1 / 2) (ry / 2 - 1 / 2)
    let xs := corners.map Prod.fst
    let ys := corners.map Prod.snd
    (corners, center, listMax xs - listMin xs, listMax ys - listMin ys)

/-- The `Camera.get_coverage_polygon`. -/
def Camera.get_coverage_polygon (c : Camera) : List (ℝ × ℝ) :=
  c.calculate_footprint.1

/-- The `Camera.calculate_pixel_resolution`: distances to the two neighbouring
pixels' projections.  (The `None` check of the code never fires since
`pixel_to_world` always returns a coordinate.) -/
def Camera.calculate_pixel_resolution (c : Camera) (px py : ℝ) : ℝ × ℝ :=
  let p1 := c.pixel_to_world px py
  let p2 := c.pixel_to_world (px + 1) py
  let p3 := c.pixel_to_world px (py + 1)
  (Real.sqrt ((p2.1 - p1.1) ^ 2 + (p2.2 - p1.2) ^ 2),
   Real.sqrt ((p3.1 - p1.1) ^ 2 + (p3.2 - p1.2) ^ 2))

/-! ## CoverageGridEngine (`calculate_coverage_map`) -/

/-- The inner double loop of `calculate_coverage_map` for one camera:
increment each cell whose lattice point lies in the polygon. -/
def add_polygon_coverage (xs ys : List ℝ) (polygon : List (ℝ × ℝ))
    (grid : List (List ℕ)) : List (List ℕ) :=
  List.zipWith (fun yv row =>
    List.zipWith (fun xv cnt =>
      if point_in_polygon xv yv polygon then cnt + 1 else cnt) xs row) ys grid

/-- The `calculate_coverage_map`: lattice xs, ys and the per-cell camera
counts (rows indexed by y, columns by x, as with `np.meshgrid`). -/
def calculate_coverage_map (cameras : List Camera)
    (battery_width battery_height : ℝ) (grid_resolution : ℝ) :
    List ℝ × List ℝ × List (List ℕ) :=
  let xs := arange0 (battery_width + grid_resolution) grid_resolution
  let ys := arange0 (battery_height + grid_resolution) grid_resolution
  (xs, ys,
    cameras.foldl (fun g c => add_polygon_coverage xs ys c.get_coverage_polygon g)
      (zeros_grid xs ys))

/-! ## ResolutionGridEngine (`calculate_resolution_map`) -/

/-- Python `round` on a float: round half to even. -/
def rnd (x : ℝ) : ℤ :=
  if Int.fract x = 1 / 2 then 2 * round (x / 2) else round x

/-- The `min` against a cell that may still be at its `inf` initialisation
(modelled by `none`). -/
def optMin (o : Option ℝ) (v : ℝ) : Option ℝ :=
  some (match o with
        | none => v
        | some m => min m v)

/-- The `avg_res = (res_x + res_y) / 2` of `calculate_resolution_map`. -/
def Camera.avg_res (c : Camera) (px py : ℝ) : ℝ :=
  ((c.calculate_pixel_resolution px py).1 + (c.calculate_pixel_resolution px py).2) / 2

/-- One iteration of the scatter loop of `calculate_resolution_map`:
project the pixel, snap to the nearest grid cell, min-update when the
indices are in range and do nothing otherwise. -/
def res_update (step : ℝ) (rows cols : ℕ)
    (grid : List (List (Option ℝ))) (s : Camera × ℕ × ℕ) :
    List (List (Option ℝ)) :=
  let c := s.1
  let px : ℝ := (s.2.1 : ℝ)
  let py : ℝ := (s.2.2 : ℝ)
  let w := c.pixel_to_world px py
  let gi := rnd (w.2 / step)
  let gj := rnd (w.1 / step)
  if 0 ≤ gi ∧ gi < (rows : ℤ) ∧ 0 ≤ gj ∧ gj < (cols : ℤ) then
    listModify (fun row => listModify (fun v => optMin v (c.avg_res px py)) gj.toNat row)
      gi.toNat grid
  else grid

/-- The iteration order of `calculate_resolution_map`: cameras in order,
then `px in range(resolution_x - 1)`, then `py in range(resolution_y - 1)`.
(The `isnan` skip of the code is omitted: `get_all_pixel_positions` never
stores a NaN because `pixel_to_world` is total.) -/
def sample_list (cameras : List Camera) : List (Camera × ℕ × ℕ) :=
  cameras.flatMap (fun c =>
    (List.range (c.spec.resolution_x - 1)).flatMap (fun px =>
      (List.range (c.spec.resolution_y - 1)).map (fun py => (c, px, py))))

/-- The `calculate_resolution_map`: cells start at `inf` (`none`), receive
min-updates, and `inf` cells become NaN on output (under the `Option`
model the final `isinf → NaN` rewrite is the identity). -/
def calculate_resolution_map (cameras : List Camera)
    (battery_width battery_height : ℝ) (grid_resolution : ℝ) :
    List ℝ × List ℝ × List (List (Option ℝ)) :=
  let xs := arange0 (battery_width + grid_resolution) grid_resolution
  let ys := arange0 (battery_height + grid_resolution) grid_resolution
  (xs, ys,
    (sample_list cameras).foldl (res_update grid_resolution ys.length xs.length)
      (nones_grid xs ys))

/-! ## AutoAimSolver (`auto_tilt_to_center`) -/

/-- The `auto_tilt_to_center`: tilt angle and direction aiming the camera at
the battery centre. -/
def auto_tilt_to_center (camera : Camera)
    (battery_width battery_height : ℝ) : ℝ × ℝ :=
  let center_x := battery_width / 2
  let center_y := battery_height / 2
  let dx := center_x - camera.x
  let dy := center_y - camera.y
  let horizontal_dist := Real.sqrt (dx ^ 2 + dy ^ 2)
  if horizontal_dist < 1 then (0, 0)
  else
    (degrees (arctan2 horizontal_dist camera.z), degrees (arctan2 dy dx))

/-! ## Derived notions used to state the grid-aggregation properties -/

/-- The grid indices a scatter sample snaps to: `(row, column) =
(round(world_y / step), round(world_x / step))`. -/
def snapped (step : ℝ) (s : Camera × ℕ × ℕ) : ℤ × ℤ :=
  (rnd ((s.1.pixel_to_world (s.2.1 : ℝ) (s.2.2 : ℝ)).2 / step),
   rnd ((s.1.pixel_to_world (s.2.1 : ℝ) (s.2.2 : ℝ)).1 / step))

/-- The resolution samples of a sample list that snap to cell `(i, j)`. -/
def cell_samples (step : ℝ) (i j : ℕ) (S : List (Camera × ℕ × ℕ)) : List ℝ :=
  (S.filter (fun s => snapped step s = ((i : ℤ), (j : ℤ)))).map
    (fun s => s.1.avg_res (s.2.1 : ℝ) (s.2.2 : ℝ))

/-- A concrete probe camera far to the lower-left of the battery plane:
3x3 pixel grid, no tilt, positioned at (-1000, -1000), height 100. -/
def camProbe : Camera :=
  { id := 0, x := -1000, y := -1000, z := 100, tilt_angle := 0,
    tilt_direction := 0,
    spec := { resolution_x := 3, resolution_y := 3, fov_h := 90, fov_v := 90 } }

end

/-! ## Helper lemmas on the list machinery -/

theorem length_listModify {α : Type} (f : α → α) :
    ∀ (n : ℕ) (l : List α), (listModify f n l).length = l.length := by
  intro n l
  induction l generalizing n with
  | nil => cases n <;> rfl
  | cons a as ih => cases n with
    | zero => rfl
    | succ m => simp [listModify, ih]

theorem getD_listModify_ne {α : Type} (f : α → α) (d : α) :
    ∀ (n i : ℕ) (l : List α), n ≠ i →
      (listModify f n l).getD i d = l.getD i d := by
  intro n i l
  induction l generalizing n i with
  | nil => intro _; cases n <;> rfl
  | cons a as ih =>
    intro h
    cases n with
    | zero => cases i with
      | zero => exact absurd rfl h
      | succ k => rfl
    | succ m => cases i with
      | zero => rfl
      | succ k =>
        simp only [listModify, List.getD_cons_succ]
        exact ih m k (by omega)

theorem getD_listModify_eq {α : Type} (f : α → α) (d : α) :
    ∀ (n : ℕ) (l : List α), n < l.length →
      (listModify f n l).getD n d = f (l.getD n d) := by
  intro n l
  induction l generalizing n with
  | nil => intro h; simp at h
  | cons a as ih =>
    intro h
    cases n with
    | zero => rfl
    | succ m =>
      simp only [listModify, List.getD_cons_succ]
      exact ih m (by simpa using h)

theorem mem_listModify {α : Type} (f : α → α) :
    ∀ (n : ℕ) (l : List α) (r : α), r ∈ listModify f n l →
      r ∈ l ∨ ∃ r₀ ∈ l, r = f r₀ := by
  intro n l
  induction l generalizing n with
  | nil => intro r h; cases n <;> simp [listModify] at h
  | cons a as ih =>
    intro r h
    cases n with
    | zero =>
      rcases List.mem_cons.mp h with h1 | h1
      · exact Or.inr ⟨a, List.mem_cons_self a as, h1⟩
      · exact Or.inl (List.mem_cons_of_mem a h1)
    | succ m =>
      rcases List.mem_cons.mp h with h1 | h1
      · exact Or.inl (h1 ▸ List.mem_cons_self a as)
      · rcases ih m r h1 with h2 | ⟨r₀, hr₀, hfr⟩
        · exact Or.inl (List.mem_cons_of_mem a h2)
        · exact Or.inr ⟨r₀, List.mem_cons_of_mem a hr₀, hfr⟩

theorem length_arange0 (stop step : ℝ) :
    (arange0 stop step).length = Int.toNat ⌈stop / step⌉ := by
  unfold arange0
  rw [List.length_map, List.length_range]

theorem gridVal_zeros (xs ys : List ℝ) (i j : ℕ) :
    gridVal (zeros_grid xs ys) i j = 0 := by
  unfold gridVal zeros_grid
  rcases lt_or_ge i (ys.map fun _ => xs.map fun _ => (0 : ℕ)).length with h | h
  · rw [List.getD_eq_getElem _ _ h, List.getElem_map]
    rcases lt_or_ge j (xs.map fun _ => (0 : ℕ)).length with h2 | h2
    · rw [List.getD_eq_getElem _ _ h2, List.getElem_map]
    · rw [List.getD_eq_default _ _ h2]
  · rw [List.getD_eq_default _ _ h]
    rfl

/-! ## C7: point-in-polygon on the reference square -/

/-- C7: the even-odd ray-casting point-in-polygon test contains (5,5) in
the square [(0,0),(10,0),(10,10),(0,10)] and excludes (15,5); being a
pure function of the point and polygon it is deterministic. -/
theorem point_in_polygon_square :
    point_in_polygon (5 : ℚ) 5 [(0, 0), (10, 0), (10, 10), (0, 10)] = true ∧
    point_in_polygon (15 : ℚ) 5 [(0, 0), (10, 0), (10, 10), (0, 10)] = false := by
  constructor <;> norm_num [point_in_polygon, pipStep]

/-! ## C1: totality and branch structure of `pixel_to_world` -/

/-- C1: for a pose with positive height, `pixel_to_world` always returns a
coordinate pair: the 10000 mm extrapolation along the tilted ray when the
ray's Z component is at least -0.001, and the exact plane intersection
with parameter t = -z / ray_z otherwise. -/
theorem pixel_to_world_branches (c : Camera) (px py : ℝ) (_hz : 0 < c.z) :
    (-(1 / 1000 : ℝ) ≤ c.ray_tilted px py 2 →
      c.pixel_to_world px py =
        (c.x + 10000 * c.ray_tilted px py 0, c.y + 10000 * c.ray_tilted px py 1)) ∧
    (c.ray_tilted px py 2 < -(1 / 1000 : ℝ) →
      c.pixel_to_world px py =
        (c.x + (-c.z / c.ray_tilted px py 2) * c.ray_tilted px py 0,
         c.y + (-c.z / c.ray_tilted px py 2) * c.ray_tilted px py 1)) := by
  constructor
  · intro h
    simp only [Camera.pixel_to_world]
    rw [if_pos h]
  · intro h
    simp only [Camera.pixel_to_world]
    rw [if_neg (not_le.mpr h)]

/-- Witness for C1 at a concrete pose and pixel. -/
theorem pixel_to_world_branches_witness :
    (0 : ℝ) < ({ id := 0, x := 0, y := 0, z := 1 } : Camera).z ∧
    (-(1 / 1000 : ℝ) ≤ ({ id := 0, x := 0, y := 0, z := 1 } : Camera).ray_tilted 0 0 2 →
      ({ id := 0, x := 0, y := 0, z := 1 } : Camera).pixel_to_world 0 0 =
        (({ id := 0, x := 0, y := 0, z := 1 } : Camera).x
            + 10000 * ({ id := 0, x := 0, y := 0, z := 1 } : Camera).ray_tilted 0 0 0,
         ({ id := 0, x := 0, y := 0, z := 1 } : Camera).y
            + 10000 * ({ id := 0, x := 0, y := 0, z := 1 } : Camera).ray_tilted 0 0 1)) :=
  ⟨by norm_num,
   (pixel_to_world_branches { id := 0, x := 0, y := 0, z := 1 } 0 0 (by norm_num)).1⟩

/-! ## C6: the auto-aim solver -/

/-- C6: `auto_tilt_to_center` returns exactly (0, 0) when the horizontal
distance from the pose to the target (the battery centre) is below 1 mm,
and otherwise returns `degrees (arctan2 distance z)` and
`degrees (arctan2 dy dx)` with no upper clamp. -/
theorem auto_tilt_to_center_branches (camera : Camera) (bw bh : ℝ) :
    (Real.sqrt ((bw / 2 - camera.x) ^ 2 + (bh / 2 - camera.y) ^ 2) < 1 →
      auto_tilt_to_center camera bw bh = (0, 0)) ∧
    (1 ≤ Real.sqrt ((bw / 2 - camera.x) ^ 2 + (bh / 2 - camera.y) ^ 2) →
      auto_tilt_to_center camera bw bh =
        (degrees (arctan2
            (Real.sqrt ((bw / 2 - camera.x) ^ 2 + (bh / 2 - camera.y) ^ 2)) camera.z),
         degrees (arctan2 (bh / 2 - camera.y) (bw / 2 - camera.x)))) := by
  constructor
  · intro h
    simp only [auto_tilt_to_center]
    rw [if_pos h]
  · intro h
    simp only [auto_tilt_to_center]
    rw [if_neg (not_lt.mpr h)]

/-- Witness for C6: a camera within 1 mm of the battery centre gets
tilt (0, 0). -/
theorem auto_tilt_to_center_branches_witness :
    auto_tilt_to_center { id := 0, x := 5, y := 5, z := 100 } 10 10 = (0, 0) :=
  (auto_tilt_to_center_branches { id := 0, x := 5, y := 5, z := 100 } 10 10).1
    (by norm_num)

/-! ## C3: footprint for an untilted camera -/

/-- C3: with `tilt_angle = 0`, the footprint centre is exactly the
camera's (x, y) and the width and height are `2 z tan(fov/2)` along each
axis, whatever `tilt_direction` is. -/
theorem footprint_no_tilt (c : Camera) (h0 : c.tilt_angle = 0) (_hz : 0 < c.z)
    (_hfh1 : 0 < c.spec.fov_h) (_hfh2 : c.spec.fov_h < 180)
    (_hfv1 : 0 < c.spec.fov_v) (_hfv2 : c.spec.fov_v < 180) :
    c.calculate_footprint.2.1 = (c.x, c.y) ∧
    c.calculate_footprint.2.2.1 = 2 * c.z * Real.tan (radians c.spec.fov_h / 2) ∧
    c.calculate_footprint.2.2.2 = 2 * c.z * Real.tan (radians c.spec.fov_v / 2) := by
  simp only [Camera.calculate_footprint]
  rw [if_pos h0]
  refine ⟨rfl, by ring, by ring⟩

/-- Witness for C3 at a concrete untilted pose with nonzero
tilt_direction. -/
theorem footprint_no_tilt_witness :
    (0 : ℝ) < (250 : ℝ) ∧
    ({ id := 0, x := 1, y := 2, z := 250, tilt_angle := 0, tilt_direction := 30 } :
        Camera).calculate_footprint.2.1 = (1, 2) :=
  ⟨by norm_num,
   ((footprint_no_tilt
      { id := 0, x := 1, y := 2, z := 250, tilt_angle := 0, tilt_direction := 30 }
      rfl (by norm_num) (by norm_num) (by norm_num) (by norm_num) (by norm_num)).1)⟩

/-! ## C2: ray composition and pixel-to-angle endpoints -/

/-- C2: the ray used by `pixel_to_world` is exactly
`Rz(+dir) (Ry(tilt) (Rz(-dir) v))` for the normalized local ray
`v = (tan angle_h, tan angle_v, -1)` with the linear-in-angle pixel map,
and (for at least 2 pixels per axis) pixel 0 maps to angle `-fov/2` and
pixel n-1 to `+fov/2`. -/
theorem ray_tilted_composition (c : Camera) (px py : ℝ) :
    c.ray_tilted px py =
      (Rz_pos (radians c.tilt_direction)).mulVec
        ((Ry_tilt (radians c.tilt_angle)).mulVec
          ((Rz_neg (radians c.tilt_direction)).mulVec
            (normalize3
              ![Real.tan ((px - ((c.spec.resolution_x : ℝ) - 1) / 2)
                    / ((c.spec.resolution_x : ℝ) - 1) * radians c.spec.fov_h),
                Real.tan ((py - ((c.spec.resolution_y : ℝ) - 1) / 2)
                    / ((c.spec.resolution_y : ℝ) - 1) * radians c.spec.fov_v),
                -1]))) ∧
    (2 ≤ c.spec.resolution_x →
      c.angle_h 0 = -(radians c.spec.fov_h / 2) ∧
      c.angle_h ((c.spec.resolution_x : ℝ) - 1) = radians c.spec.fov_h / 2) ∧
    (2 ≤ c.spec.resolution_y →
      c.angle_v 0 = -(radians c.spec.fov_v / 2) ∧
      c.angle_v ((c.spec.resolution_y : ℝ) - 1) = radians c.spec.fov_v / 2) := by
  refine ⟨?_, ?_, ?_⟩
  · simp only [Camera.ray_tilted, Camera.R_combined, Camera.ray_local,
      Camera.angle_h, Camera.angle_v, ← Matrix.mulVec_mulVec]
  · intro h
    have hn : ((c.spec.resolution_x : ℝ) - 1) ≠ 0 := by
      have h2 : (2 : ℝ) ≤ (c.spec.resolution_x : ℝ) := by exact_mod_cast h
      linarith
    constructor
    · simp only [Camera.angle_h]
      field_simp
      ring
    · simp only [Camera.angle_h]
      field_simp
      ring
  · intro h
    have hn : ((c.spec.resolution_y : ℝ) - 1) ≠ 0 := by
      have h2 : (2 : ℝ) ≤ (c.spec.resolution_y : ℝ) := by exact_mod_cast h
      linarith
    constructor
    · simp only [Camera.angle_v]
      field_simp
      ring
    · simp only [Camera.angle_v]
      field_simp
      ring

/-- Witness for C2: the default 32-pixel horizontal axis maps pixel 0 to
angle `-fov_h/2`. -/
theorem ray_tilted_composition_witness :
    (2 ≤ ({ id := 0, x := 0, y := 0, z := 100 } : Camera).spec.resolution_x) ∧
    ({ id := 0, x := 0, y := 0, z := 100 } : Camera).angle_h 0 =
      -(radians ({ id := 0, x := 0, y := 0, z := 100 } : Camera).spec.fov_h / 2) :=
  ⟨by norm_num,
   ((ray_tilted_composition { id := 0, x := 0, y := 0, z := 100 } 0 0).2.1
      (by norm_num)).1⟩

/-! ## Coverage grid lemmas (towards C4, C8, C9) -/

theorem zeros_grid_shape (xs ys : List ℝ) :
    gridShape (zeros_grid xs ys) ys.length xs.length := by
  constructor
  · simp [zeros_grid]
  · intro row hrow
    simp only [zeros_grid, List.mem_map] at hrow
    obtain ⟨a, _, rfl⟩ := hrow
    simp

theorem add_polygon_coverage_shape (xs ys : List ℝ) (p : List (ℝ × ℝ))
    (g : List (List ℕ)) (hg : gridShape g ys.length xs.length) :
    gridShape (add_polygon_coverage xs ys p g) ys.length xs.length := by
  obtain ⟨hlen, hrow⟩ := hg
  constructor
  · simp [add_polygon_coverage, List.length_zipWith, hlen]
  · intro row hmem
    unfold add_polygon_coverage at hmem
    rw [List.mem_iff_getElem] at hmem
    obtain ⟨i, hi, hrow'⟩ := hmem
    rw [List.getElem_zipWith] at hrow'
    have hgl : i < g.length := by
      rw [List.length_zipWith, hlen, Nat.min_self] at hi
      omega
    rw [← hrow', List.length_zipWith]
    have := hrow _ (List.getElem_mem hgl)
    rw [this, Nat.min_self]

theorem gridVal_add_polygon_coverage (xs ys : List ℝ) (p : List (ℝ × ℝ))
    (g : List (List ℕ)) (hg : gridShape g ys.length xs.length)
    (i j : ℕ) (hi : i < ys.length) (hj : j < xs.length) :
    gridVal (add_polygon_coverage xs ys p g) i j =
      if point_in_polygon (xs.getD j 0) (ys.getD i 0) p then gridVal g i j + 1
      else gridVal g i j := by
  obtain ⟨hlen, hrow⟩ := hg
  have hgi : i < g.length := by omega
  have hiz : i < (List.zipWith (fun yv row =>
      List.zipWith (fun xv cnt =>
        if point_in_polygon xv yv p then cnt + 1 else cnt) xs row) ys g).length := by
    rw [List.length_zipWith, hlen, Nat.min_self]
    exact hi
  have hrowlen : g[i].length = xs.length := hrow _ (List.getElem_mem hgi)
  have hjz : j < (List.zipWith (fun xv cnt =>
      if point_in_polygon xv (ys[i]) p then cnt + 1 else cnt) xs g[i]).length := by
    rw [List.length_zipWith, hrowlen, Nat.min_self]
    exact hj
  unfold gridVal add_polygon_coverage
  rw [List.getD_eq_getElem _ _ hiz, List.getElem_zipWith,
    List.getD_eq_getElem _ _ hjz, List.getElem_zipWith,
    List.getD_eq_getElem _ _ hgi, List.getD_eq_getElem _ _ (by omega : j < g[i].length),
    List.getD_eq_getElem xs _ hj, List.getD_eq_getElem ys _ hi]

theorem coverage_foldl_shape (xs ys : List ℝ) :
    ∀ (cams : List Camera) (g : List (List ℕ)),
      gridShape g ys.length xs.length →
      gridShape (cams.foldl
        (fun g c => add_polygon_coverage xs ys c.get_coverage_polygon g) g)
        ys.length xs.length := by
  intro cams
  induction cams with
  | nil => intro g hg; exact hg
  | cons c cs ih =>
    intro g hg
    exact ih _ (add_polygon_coverage_shape xs ys _ g hg)

theorem coverage_foldl_val (xs ys : List ℝ) (i j : ℕ)
    (hi : i < ys.length) (hj : j < xs.length) :
    ∀ (cams : List Camera) (g : List (List ℕ)),
      gridShape g ys.length xs.length →
      gridVal (cams.foldl
        (fun g c => add_polygon_coverage xs ys c.get_coverage_polygon g) g) i j
        = gridVal g i j
          + cams.countP (fun c =>
              point_in_polygon (xs.getD j 0) (ys.getD i 0) c.get_coverage_polygon) := by
  intro cams
  induction cams with
  | nil => intro g _; simp
  | cons c cs ih =>
    intro g hg
    simp only [List.foldl_cons, List.countP_cons]
    rw [ih _ (add_polygon_coverage_shape xs ys _ g hg),
      gridVal_add_polygon_coverage xs ys _ g hg i j hi hj]
    by_cases hc : point_in_polygon (xs.getD j 0) (ys.getD i 0) c.get_coverage_polygon
    · rw [if_pos hc, if_pos hc]
      omega
    · rw [if_neg hc, if_neg hc]
      omega

/-! ## C4: coverage counts are exactly polygon-membership counts -/

/-- C4: every lattice cell of `calculate_coverage_map` holds exactly the
number of cameras whose footprint polygon contains that lattice point
under the even-odd point-in-polygon rule. -/
theorem coverage_map_counts (cams : List Camera) (bw bh step : ℝ)
    (_hstep : 0 < step) (i j : ℕ)
    (hi : i < (calculate_coverage_map cams bw bh step).2.1.length)
    (hj : j < (calculate_coverage_map cams bw bh step).1.length) :
    gridVal (calculate_coverage_map cams bw bh step).2.2 i j
      = cams.countP (fun c =>
          point_in_polygon ((calculate_coverage_map cams bw bh step).1.getD j 0)
            ((calculate_coverage_map cams bw bh step).2.1.getD i 0)
            c.get_coverage_polygon) := by
  have h := coverage_foldl_val (arange0 (bw + step) step) (arange0 (bh + step) step)
    i j hi hj cams
    (zeros_grid (arange0 (bw + step) step) (arange0 (bh + step) step))
    (zeros_grid_shape _ _)
  rw [gridVal_zeros, Nat.zero_add] at h
  exact h

/-- Witness for C4 at the empty camera list on a 10x10 plane. -/
theorem coverage_map_counts_witness :
    gridVal (calculate_coverage_map [] 10 10 10).2.2 0 0
      = ([] : List Camera).countP (fun c =>
          point_in_polygon ((calculate_coverage_map [] 10 10 10).1.getD 0 0)
            ((calculate_coverage_map [] 10 10 10).2.1.getD 0 0)
            c.get_coverage_polygon) :=
  coverage_map_counts [] 10 10 10 (by norm_num) 0 0
    (by
      show 0 < (arange0 (10 + 10 : ℝ) 10).length
      rw [length_arange0]
      norm_num)
    (by
      show 0 < (arange0 (10 + 10 : ℝ) 10).length
      rw [length_arange0]
      norm_num)

/-! ## C9: coverage counts are bounded by the number of cameras -/

theorem coverage_foldl_le (xs ys : List ℝ) (cams : List Camera) (i j : ℕ) :
    gridVal (cams.foldl
      (fun g c => add_polygon_coverage xs ys c.get_coverage_polygon g)
      (zeros_grid xs ys)) i j ≤ cams.length := by
  obtain ⟨hlen, hrow⟩ := coverage_foldl_shape xs ys cams (zeros_grid xs ys)
    (zeros_grid_shape xs ys)
  by_cases hi : i < ys.length
  · by_cases hj : j < xs.length
    · rw [coverage_foldl_val xs ys i j hi hj cams (zeros_grid xs ys)
        (zeros_grid_shape xs ys), gridVal_zeros, Nat.zero_add]
      exact List.countP_le_length _
    · unfold gridVal
      rcases lt_or_ge i (cams.foldl
          (fun g c => add_polygon_coverage xs ys c.get_coverage_polygon g)
          (zeros_grid xs ys)).length with h2 | h2
      · rw [List.getD_eq_getElem _ _ h2, List.getD_eq_default]
        · exact Nat.zero_le _
        · rw [hrow _ (List.getElem_mem h2)]
          omega
      · rw [List.getD_eq_default _ _ h2]
        simp
  · unfold gridVal
    have hrow0 : (cams.foldl
        (fun g c => add_polygon_coverage xs ys c.get_coverage_polygon g)
        (zeros_grid xs ys)).getD i [] = [] :=
      List.getD_eq_default _ _ (by rw [hlen]; omega)
    rw [hrow0]
    simp

/-- C9: every cell of the coverage map is a natural number at most the
number of cameras (each camera increments a cell at most once and nothing
ever decrements). -/
theorem coverage_map_le_length (cams : List Camera) (bw bh step : ℝ)
    (_hstep : 0 < step) (i j : ℕ) :
    gridVal (calculate_coverage_map cams bw bh step).2.2 i j ≤ cams.length :=
  coverage_foldl_le (arange0 (bw + step) step) (arange0 (bh + step) step) cams i j

/-- Witness for C9 at a concrete empty placement. -/
theorem coverage_map_le_length_witness :
    gridVal (calculate_coverage_map [] 10 10 10).2.2 0 0 ≤ ([] : List Camera).length :=
  coverage_map_le_length [] 10 10 10 (by norm_num) 0 0

/-! ## C8: the empty coverage map -/

/-- C8 counterexample: for width 20, height 10, step 10, the FIRST
dimension of the returned grid has ⌈height/step⌉+1 = 2 entries (the
`np.meshgrid` convention puts the y axis first), not ⌈width/step⌉+1 = 3
as the claim's axis order asserts. -/
theorem coverage_map_shape_counterexample :
    ¬ ((calculate_coverage_map [] 20 10 10).2.2.length
        = Int.toNat ⌈(20 : ℝ) / 10⌉ + 1) := by
  have h : (calculate_coverage_map [] 20 10 10).2.2.length = 2 := by
    show (zeros_grid (arange0 (20 + 10 : ℝ) 10) (arange0 (10 + 10 : ℝ) 10)).length = 2
    rw [(zeros_grid_shape (arange0 (20 + 10 : ℝ) 10) (arange0 (10 + 10 : ℝ) 10)).1,
      length_arange0]
    norm_num
    decide
  rw [h]
  norm_num
  decide

/-- C8 (amended): `calculate_coverage_map` on an empty camera list
returns an all-zero grid of ⌈height/step⌉+1 rows (first dimension, along
the height axis), each of ⌈width/step⌉+1 cells (second dimension, along
the width axis). -/
theorem coverage_map_empty (bw bh step : ℝ) (hstep : 0 < step)
    (hw : 0 < bw) (hh : 0 < bh) :
    (∀ i j, gridVal (calculate_coverage_map [] bw bh step).2.2 i j = 0) ∧
    (calculate_coverage_map [] bw bh step).2.2.length = Int.toNat ⌈bh / step⌉ + 1 ∧
    ∀ row ∈ (calculate_coverage_map [] bw bh step).2.2,
      row.length = Int.toNat ⌈bw / step⌉ + 1 := by
  have harange : ∀ b : ℝ, 0 < b →
      (arange0 (b + step) step).length = Int.toNat ⌈b / step⌉ + 1 := by
    intro b hb
    rw [length_arange0]
    have hdiv : (b + step) / step = b / step + 1 := by
      field_simp
    rw [hdiv, Int.ceil_add_one]
    have : 0 < ⌈b / step⌉ := Int.ceil_pos.mpr (div_pos hb hstep)
    omega
  refine ⟨?_, ?_, ?_⟩
  · intro i j
    exact gridVal_zeros (arange0 (bw + step) step) (arange0 (bh + step) step) i j
  · show (zeros_grid (arange0 (bw + step) step) (arange0 (bh + step) step)).length = _
    rw [(zeros_grid_shape (arange0 (bw + step) step) (arange0 (bh + step) step)).1]
    exact harange bh hh
  · intro row hrow
    have hmem : row ∈ zeros_grid (arange0 (bw + step) step) (arange0 (bh + step) step) :=
      hrow
    rw [(zeros_grid_shape (arange0 (bw + step) step)
      (arange0 (bh + step) step)).2 row hmem]
    exact harange bw hw

/-- Witness for C8 (amended) on a 10x10 plane with step 10. -/
theorem coverage_map_empty_witness :
    gridVal (calculate_coverage_map [] 10 10 10).2.2 0 0 = 0 ∧
    (calculate_coverage_map [] 10 10 10).2.2.length = Int.toNat ⌈(10 : ℝ) / 10⌉ + 1 :=
  ⟨(coverage_map_empty 10 10 10 (by norm_num) (by norm_num) (by norm_num)).1 0 0,
   (coverage_map_empty 10 10 10 (by norm_num) (by norm_num) (by norm_num)).2.1⟩

/-! ## Resolution grid lemmas (towards C5, C10) -/

theorem nones_grid_shape (xs ys : List ℝ) :
    gridShape (nones_grid xs ys) ys.length xs.length := by
  constructor
  · simp [nones_grid]
  · intro row hrow
    simp only [nones_grid, List.mem_map] at hrow
    obtain ⟨a, _, rfl⟩ := hrow
    simp

theorem gridValO_nones (xs ys : List ℝ) (i j : ℕ) :
    gridValO (nones_grid xs ys) i j = none := by
  unfold gridValO nones_grid
  rcases lt_or_ge i (ys.map fun _ => xs.map fun _ => (none : Option ℝ)).length with h | h
  · rw [List.getD_eq_getElem _ _ h, List.getElem_map]
    rcases lt_or_ge j (xs.map fun _ => (none : Option ℝ)).length with h2 | h2
    · rw [List.getD_eq_getElem _ _ h2, List.getElem_map]
    · rw [List.getD_eq_default _ _ h2]
  · rw [List.getD_eq_default _ _ h]
    rfl

theorem res_update_shape (step : ℝ) (rows cols : ℕ)
    (g : List (List (Option ℝ))) (s : Camera × ℕ × ℕ)
    (hg : gridShape g rows cols) :
    gridShape (res_update step rows cols g s) rows cols := by
  obtain ⟨hlen, hrow⟩ := hg
  simp only [res_update]
  split
  · constructor
    · rw [length_listModify, hlen]
    · intro row hmem
      rcases mem_listModify _ _ _ _ hmem with h | ⟨r₀, hr₀, rfl⟩
      · exact hrow _ h
      · rw [length_listModify]
        exact hrow _ hr₀
  · exact ⟨hlen, hrow⟩

theorem gridValO_res_update (step : ℝ) (rows cols : ℕ)
    (g : List (List (Option ℝ))) (s : Camera × ℕ × ℕ)
    (hg : gridShape g rows cols) (i j : ℕ) (hi : i < rows) (hj : j < cols) :
    gridValO (res_update step rows cols g s) i j =
      if snapped step s = ((i : ℤ), (j : ℤ))
      then optMin (gridValO g i j) (s.1.avg_res (s.2.1 : ℝ) (s.2.2 : ℝ))
      else gridValO g i j := by
  obtain ⟨hlen, hrow⟩ := hg
  have hgi : i < g.length := by omega
  have hrl : (g.getD i []).length = cols := by
    rw [List.getD_eq_getElem _ _ hgi]
    exact hrow _ (List.getElem_mem hgi)
  simp only [res_update, snapped]
  split_ifs with h1 h2 h2
  · -- in range and snapped to (i, j)
    rw [Prod.mk.injEq] at h2
    obtain ⟨hgi', hgj'⟩ := h2
    unfold gridValO
    rw [hgi', hgj']
    rw [show ((i : ℤ).toNat) = i from by omega, show ((j : ℤ).toNat) = j from by omega]
    rw [getD_listModify_eq _ _ _ _ (by omega : i < g.length)]
    rw [getD_listModify_eq _ _ _ _ (by omega : j < (g.getD i []).length)]
  · -- in range but snapped elsewhere: the modified cell is a different one
    rw [Prod.mk.injEq] at h2
    obtain ⟨hb1, hb2, hb3, hb4⟩ := h1
    unfold gridValO
    by_cases hii : (rnd ((s.1.pixel_to_world (s.2.1 : ℝ) (s.2.2 : ℝ)).2 / step)).toNat = i
    · have hgieq : rnd ((s.1.pixel_to_world (s.2.1 : ℝ) (s.2.2 : ℝ)).2 / step) = (i : ℤ) := by
        omega
      have hjj : (rnd ((s.1.pixel_to_world (s.2.1 : ℝ) (s.2.2 : ℝ)).1 / step)).toNat ≠ j := by
        intro hc
        exact h2 ⟨hgieq, by omega⟩
      rw [hii] at *
      rw [getD_listModify_eq _ _ _ _ (by omega : i < g.length)]
      rw [getD_listModify_ne _ _ _ _ _ hjj]
    · rw [getD_listModify_ne _ _ _ _ _ hii]
  · -- out of range but snapped to (i, j): impossible
    exfalso
    rw [Prod.mk.injEq] at h2
    exact h1 ⟨by omega, by omega, by omega, by omega⟩
  · rfl

theorem res_foldl_val (step : ℝ) (rows cols i j : ℕ)
    (hi : i < rows) (hj : j < cols) :
    ∀ (S : List (Camera × ℕ × ℕ)) (g : List (List (Option ℝ))),
      gridShape g rows cols →
      gridValO (S.foldl (res_update step rows cols) g) i j
        = (cell_samples step i j S).foldl optMin (gridValO g i j) := by
  intro S
  induction S with
  | nil => intro g _; simp [cell_samples]
  | cons s S ih =>
    intro g hg
    simp only [List.foldl_cons]
    rw [ih _ (res_update_shape step rows cols g s hg),
      gridValO_res_update step rows cols g s hg i j hi hj]
    by_cases hc : snapped step s = ((i : ℤ), (j : ℤ))
    · rw [if_pos hc]
      have hcell : cell_samples step i j (s :: S)
          = s.1.avg_res (s.2.1 : ℝ) (s.2.2 : ℝ) :: cell_samples step i j S := by
        simp [cell_samples, List.filter_cons, hc]
      rw [hcell, List.foldl_cons]
    · rw [if_neg hc]
      have hcell : cell_samples step i j (s :: S) = cell_samples step i j S := by
        simp [cell_samples, List.filter_cons, hc]
      rw [hcell]

theorem foldl_optMin_some (L : List ℝ) (a : ℝ) :
    L.foldl optMin (some a) = some (L.foldl min a) := by
  induction L generalizing a with
  | nil => rfl
  | cons v L ih =>
    simp only [List.foldl_cons]
    exact ih (min a v)

theorem foldl_optMin_none_iff (L : List ℝ) :
    L.foldl optMin none = none ↔ L = [] := by
  cases L with
  | nil => simp
  | cons v L =>
    simp only [List.foldl_cons]
    rw [show optMin none v = some v from rfl, foldl_optMin_some]
    simp

theorem foldl_min_mem (L : List ℝ) (a : ℝ) :
    L.foldl min a = a ∨ L.foldl min a ∈ L := by
  induction L generalizing a with
  | nil => left; rfl
  | cons v L ih =>
    simp only [List.foldl_cons]
    rcases ih (min a v) with h | h
    · rcases min_choice a v with h2 | h2
      · left
        rw [h, h2]
      · right
        rw [h, h2]
        exact List.mem_cons_self _ _
    · right
      exact List.mem_cons_of_mem _ h

theorem foldl_min_le (L : List ℝ) (a : ℝ) :
    L.foldl min a ≤ a ∧ ∀ v ∈ L, L.foldl min a ≤ v := by
  induction L generalizing a with
  | nil =>
    refine ⟨le_refl a, ?_⟩
    intro v hv
    simp at hv
  | cons v L ih =>
    obtain ⟨h1, h2⟩ := ih (min a v)
    refine ⟨le_trans h1 (min_le_left a v), ?_⟩
    intro u hu
    rcases List.mem_cons.mp hu with rfl | hu'
    · exact le_trans h1 (min_le_right a u)
    · exact h2 u hu'

/-! ## C5: resolution cells are the minimum of their samples, NaN if none -/

/-- C5: a resolution-map cell that received no sample is exactly `none`
(the NaN marker), and a cell that received samples holds the minimum of
the per-pixel averaged resolutions `(res_x + res_y) / 2` of all samples
(over every camera and in-range pixel pair) whose own snapped world
position selects that cell. -/
theorem resolution_map_min_cells (cams : List Camera) (bw bh step : ℝ)
    (i j : ℕ)
    (hi : i < (calculate_resolution_map cams bw bh step).2.1.length)
    (hj : j < (calculate_resolution_map cams bw bh step).1.length) :
    gridValO (calculate_resolution_map cams bw bh step).2.2 i j
        = (cell_samples step i j (sample_list cams)).foldl optMin none ∧
    (gridValO (calculate_resolution_map cams bw bh step).2.2 i j = none ↔
        cell_samples step i j (sample_list cams) = []) ∧
    ∀ m, gridValO (calculate_resolution_map cams bw bh step).2.2 i j = some m →
        m ∈ cell_samples step i j (sample_list cams) ∧
        ∀ v ∈ cell_samples step i j (sample_list cams), m ≤ v := by
  have hmain : gridValO (calculate_resolution_map cams bw bh step).2.2 i j
      = (cell_samples step i j (sample_list cams)).foldl optMin none := by
    have h := res_foldl_val step (arange0 (bh + step) step).length
      (arange0 (bw + step) step).length i j hi hj (sample_list cams)
      (nones_grid (arange0 (bw + step) step) (arange0 (bh + step) step))
      (nones_grid_shape _ _)
    rw [gridValO_nones] at h
    exact h
  refine ⟨hmain, ?_, ?_⟩
  · rw [hmain]
    exact foldl_optMin_none_iff _
  · intro m hm
    rw [hmain] at hm
    cases hL : cell_samples step i j (sample_list cams) with
    | nil =>
      rw [hL] at hm
      simp at hm
    | cons v L =>
      rw [hL, List.foldl_cons, show optMin none v = some v from rfl,
        foldl_optMin_some] at hm
      have hmv : L.foldl min v = m := Option.some.inj hm
      constructor
      · rw [← hmv]
        rcases foldl_min_mem L v with h | h
        · rw [h]
          exact List.mem_cons_self _ _
        · exact List.mem_cons_of_mem _ h
      · intro u hu
        rw [← hmv]
        rcases List.mem_cons.mp hu with rfl | hu'
        · exact (foldl_min_le L u).1
        · exact (foldl_min_le L v).2 u hu'

/-- Witness for C5 on an empty camera list: the (0,0) cell of a 10x10
plane has no samples and is `none`. -/
theorem resolution_map_min_cells_witness :
    gridValO (calculate_resolution_map [] 10 10 10).2.2 0 0
      = (cell_samples 10 0 0 (sample_list [])).foldl optMin none :=
  (resolution_map_min_cells [] 10 10 10 0 0
    (by
      show 0 < (arange0 (10 + 10 : ℝ) 10).length
      rw [length_arange0]
      norm_num)
    (by
      show 0 < (arange0 (10 + 10 : ℝ) 10).length
      rw [length_arange0]
      norm_num)).1

/-! ## C10: out-of-range resolution samples are silently discarded -/

/-- C10: a resolution sample whose snapped indices fall outside the
output grid (negative or too large in either axis) updates nothing: the
scatter step returns the grid unchanged. -/
theorem res_update_out_of_range (step : ℝ) (rows cols : ℕ)
    (grid : List (List (Option ℝ))) (c : Camera) (px py : ℕ)
    (h : ¬ (0 ≤ rnd ((c.pixel_to_world (px : ℝ) (py : ℝ)).2 / step) ∧
            rnd ((c.pixel_to_world (px : ℝ) (py : ℝ)).2 / step) < (rows : ℤ) ∧
            0 ≤ rnd ((c.pixel_to_world (px : ℝ) (py : ℝ)).1 / step) ∧
            rnd ((c.pixel_to_world (px : ℝ) (py : ℝ)).1 / step) < (cols : ℤ))) :
    res_update step rows cols grid (c, px, py) = grid := by
  simp only [res_update]
  rw [if_neg h]

theorem Rz_neg_mulVec (d : ℝ) (v : Fin 3 → ℝ) :
    (Rz_neg d).mulVec v =
      ![Real.cos d * v 0 + Real.sin d * v 1,
        -Real.sin d * v 0 + Real.cos d * v 1, v 2] := by
  funext i
  fin_cases i <;>
    simp [Rz_neg, Matrix.mulVec, Matrix.dotProduct, Fin.sum_univ_three]

theorem Rz_pos_mulVec (d : ℝ) (v : Fin 3 → ℝ) :
    (Rz_pos d).mulVec v =
      ![Real.cos d * v 0 - Real.sin d * v 1,
        Real.sin d * v 0 + Real.cos d * v 1, v 2] := by
  funext i
  fin_cases i <;>
    simp [Rz_pos, Matrix.mulVec, Matrix.dotProduct, Fin.sum_univ_three] <;>
    ring

theorem Ry_tilt_mulVec (t : ℝ) (v : Fin 3 → ℝ) :
    (Ry_tilt t).mulVec v =
      ![Real.cos t * v 0 + Real.sin t * v 2, v 1,
        -Real.sin t * v 0 + Real.cos t * v 2] := by
  funext i
  fin_cases i <;>
    simp [Ry_tilt, Matrix.mulVec, Matrix.dotProduct, Fin.sum_univ_three] <;>
    ring

theorem camProbe_ray : camProbe.ray_tilted 1 1 = ![0, 0, -1] := by
  have hah : camProbe.angle_h 1 = 0 := by
    simp [Camera.angle_h, camProbe]
    norm_num
  have hav : camProbe.angle_v 1 = 0 := by
    simp [Camera.angle_v, camProbe]
    norm_num
  have hlocal : camProbe.ray_local 1 1 = ![0, 0, -1] := by
    rw [Camera.ray_local, hah, hav, Real.tan_zero]
    funext i
    fin_cases i <;>
      simp [normalize3]
  have hd : radians camProbe.tilt_direction = 0 := by
    simp [camProbe, radians]
  have ht : radians camProbe.tilt_angle = 0 := by
    simp [camProbe, radians]
  rw [Camera.ray_tilted, Camera.R_combined, hd, ht,
    ← Matrix.mulVec_mulVec, ← Matrix.mulVec_mulVec, hlocal,
    Rz_neg_mulVec, Ry_tilt_mulVec, Rz_pos_mulVec]
  funext i
  fin_cases i <;>
    simp [Real.cos_zero, Real.sin_zero]

theorem camProbe_ptw :
    camProbe.pixel_to_world ((1 : ℕ) : ℝ) ((1 : ℕ) : ℝ) = (-1000, -1000) := by
  have h1 : ((1 : ℕ) : ℝ) = 1 := by norm_num
  rw [h1]
  simp only [Camera.pixel_to_world, camProbe_ray]
  rw [if_neg (by
    simp only [Matrix.cons_val_two, Matrix.tail_cons, Matrix.head_cons]
    norm_num)]
  simp [camProbe]

theorem rnd_neg_hundred : rnd (-100 : ℝ) = -100 := by
  have hcast : ((-100 : ℝ)) = (((-100 : ℤ)) : ℝ) := by norm_num
  rw [rnd, hcast, Int.fract_intCast]
  rw [if_neg (by norm_num)]
  exact round_intCast (-100)

/-- Witness for C10: the probe camera's centre pixel lands at
(-1000, -1000), snapping to negative indices, and is discarded. -/
theorem res_update_out_of_range_witness :
    res_update 10 2 2 [[none, none], [none, none]] (camProbe, 1, 1)
      = [[none, none], [none, none]] :=
  res_update_out_of_range 10 2 2 [[none, none], [none, none]] camProbe 1 1 (by
    intro hcon
    obtain ⟨hc1, _, _, _⟩ := hcon
    rw [camProbe_ptw] at hc1
    norm_num at hc1
    rw [rnd_neg_hundred] at hc1
    norm_num at hc1)
